import Mathlib

/-!
Verification development for the DOCX linearizer (`main.py`).

The file shallowly embeds the render engine of the source: Python strings
become `String`, dicts that are only read pointwise become functions into
`Option`, insertion-ordered dicts that are iterated become association
lists, and the mutable `RenderState` / `RenderOut` objects become values
threaded explicitly through the rendering functions.  XML-attribute
parsing (zip access, `ElementTree`, run/paragraph property readers) is the
excluded boundary: nodes carry their already-parsed attributes.
-/

set_option maxHeartbeats 1000000

namespace Docx

/-! ## Python string helpers

`pyStrip`, `pyRstrip`, `pySplit` and `collapseWs` model Python's
`str.strip()`, `str.rstrip()`, `str.split()` (no argument: split on runs
of whitespace, dropping empty tokens) and `" ".join(s.split())`.
Whitespace is modelled by the ASCII whitespace characters Python treats
as such; the sources in scope only produce ASCII whitespace. -/

def isPyWs (c : Char) : Bool :=
  c = ' ' || c = '\t' || c = '\n' || c = '\r' || c = '\x0b' || c = '\x0c'

def pyStrip (s : String) : String :=
  ⟨((s.toList.dropWhile isPyWs).reverse.dropWhile isPyWs).reverse⟩

def pyRstrip (s : String) : String :=
  ⟨(s.toList.reverse.dropWhile isPyWs).reverse⟩

def pySplitAux : List Char → List Char → List String
  | [], acc => if acc.isEmpty then [] else [⟨acc.reverse⟩]
  | c :: cs, acc =>
      if isPyWs c then
        if acc.isEmpty then pySplitAux cs [] else (⟨acc.reverse⟩ : String) :: pySplitAux cs []
      else pySplitAux cs (c :: acc)

def pySplit (s : String) : List String := pySplitAux s.toList []

def collapseWs (s : String) : String := String.intercalate " " (pySplit s)

/-- Python `.lower()`; the heading-name patterns in scope are ASCII or
    caseless CJK, where `Char.toLower` agrees with Python. -/
def pyLower (s : String) : String := ⟨s.toList.map Char.toLower⟩

/-! ## Data model (`Comment`, numbering, styles) -/

structure Comment where
  comment_id : String
  author : Option String
  date : Option String
  text : String
  deriving Repr, DecidableEq

structure NumberingLevel where
  num_fmt : String
  lvl_text : String
  start : Int
  deriving Repr, DecidableEq

/-- `NumberingDefinition.levels` is the per-depth dict `levels`, read only
    pointwise, hence modelled as a function. -/
structure NumberingDefinition where
  levels : Nat → Option NumberingLevel

structure NumberingInfo where
  abstract_nums : String → Option NumberingDefinition
  num_to_abstract : String → Option String

/-- `NumberingInfo.get_level`: `num_to_abstract.get` with Python
    truthiness (`None` or `""` both fail), then `abstract_nums.get`,
    then `levels.get(ilvl)`. -/
def NumberingInfo.get_level (info : NumberingInfo) (num_id : String) (ilvl : Nat) :
    Option NumberingLevel :=
  match info.num_to_abstract num_id with
  | none => none
  | some abstract_id =>
      if abstract_id = "" then none
      else
        match info.abstract_nums abstract_id with
        | none => none
        | some abstract => abstract.levels ilvl

structure StyleInfo where
  heading_levels : String → Option Nat

def emptyNumbering : NumberingInfo := ⟨fun _ => none, fun _ => none⟩

def emptyStyles : StyleInfo := ⟨fun _ => none⟩

/-! ## Style parsing (`_parse_styles`)

One `StyleDecl` is a `w:style` element with its already-extracted
attributes: `style_id` is the `styleId` attribute, `outline` the parsed
integer value of a present `outlineLvl` child, `name` the `val` of a
present `name` child (`None` when no name element, `""` when the
attribute is missing, matching `get(...) or ""`). -/

structure StyleDecl where
  style_id : Option String
  outline : Option Int
  name : Option String

/-- Drop an expected literal prefix from a character list. -/
def dropLit : List Char → List Char → Option (List Char)
  | [], rest => some rest
  | _ :: _, [] => none
  | p :: ps, c :: cs => if c = p then dropLit ps cs else none

def digitsVal (ds : List Char) : Nat :=
  ds.foldl (fun a c => 10 * a + (c.toNat - 48)) 0

/-- The regular expression match from `_parse_styles`:
    `re.match(r"(?:heading|标题)\s*(\d+)", name_lower)` followed by
    `int(match.group(1))`.  The alternation branches start with distinct
    characters, `\s*` and `\d+` are disjoint classes, so maximal-munch
    scanning is exactly the backtracking semantics. -/
def matchHeadingNum (s : String) : Option Nat :=
  let cs := s.toList
  let rest? :=
    match dropLit "heading".toList cs with
    | some r => some r
    | none => dropLit "标题".toList cs
  match rest? with
  | none => none
  | some r =>
      let ds := (r.dropWhile isPyWs).takeWhile Char.isDigit
      if ds.isEmpty then none else some (digitsVal ds)

/-- The body of the `for style in ...` loop of `_parse_styles`: first the
    `outlineLvl` check writes `lvl + 1`, then a matching display name
    overwrites the entry with `N`. -/
def processStyle (m : String → Option Nat) (d : StyleDecl) : String → Option Nat :=
  match d.style_id with
  | none => m
  | some sid =>
      if sid = "" then m
      else
        let m1 : String → Option Nat :=
          match d.outline with
          | some lvl =>
              if 0 ≤ lvl ∧ lvl ≤ 5 then
                fun x => if x = sid then some (lvl.toNat + 1) else m x
              else m
          | none => m
        match d.name with
        | none => m1
        | some nm =>
            match matchHeadingNum (pyLower nm) with
            | some n =>
                if 1 ≤ n ∧ n ≤ 6 then
                  fun x => if x = sid then some n else m1 x
                else m1
            | none => m1

def parseStyles (ds : List StyleDecl) : StyleInfo :=
  ⟨ds.foldl processStyle (fun _ => none)⟩

/-! ## Traversal state (`RenderState`) and output buffer (`RenderOut`)

`active_comment_ranges` is an insertion-ordered dict iterated by value;
it becomes an association list of `CommentRange` (keys are unique for
every reachable state because `start_comment_range` guards insertion, so
removing by key-filter is dict `pop`).  `list_counters` is a dict only
read and written pointwise, hence a function.  `history` is a
specification-only history variable: it receives exactly the elements
appended to `collected_comments` and is read by no operation; it lets
"at most one block per comment id over the whole traversal" be stated
across the per-paragraph drains of `collected_comments`. -/

structure CommentRange where
  comment_id : String
  text_parts : List String
  deriving Repr, DecidableEq

structure CollectedComment where
  comment_id : String
  author : Option String
  date : Option String
  original_text : String
  comment_text : String
  deriving Repr, DecidableEq

structure RenderState where
  comments : List (String × Comment)
  numbering : NumberingInfo
  styles : StyleInfo
  active_comment_ranges : List CommentRange
  collected_comments : List CollectedComment
  emitted_comment_ids : List String
  list_counters : String × Nat → Option Int
  history : List CollectedComment

def initState (reg : List (String × Comment)) (numb : NumberingInfo) (sty : StyleInfo) :
    RenderState :=
  { comments := reg, numbering := numb, styles := sty,
    active_comment_ranges := [], collected_comments := [],
    emitted_comment_ids := [], list_counters := fun _ => none, history := [] }

/-- `self.comments.get(cid)` on the registry dict. -/
def lookupComment (reg : List (String × Comment)) (cid : String) : Option Comment :=
  (reg.find? (fun p => p.1 == cid)).map (·.2)

def RenderState.findRange (st : RenderState) (cid : String) : Option CommentRange :=
  st.active_comment_ranges.find? (fun cr => cr.comment_id == cid)

/-- `RenderState.start_comment_range`. -/
def RenderState.start_comment_range (st : RenderState) (cid : String) : RenderState :=
  if (st.findRange cid).isSome then st
  else { st with active_comment_ranges :=
          st.active_comment_ranges ++ [{ comment_id := cid, text_parts := [] }] }

/-- `RenderState.append_to_active_ranges`. -/
def RenderState.append_to_active_ranges (st : RenderState) (text : String) : RenderState :=
  { st with active_comment_ranges :=
      st.active_comment_ranges.map (fun cr => { cr with text_parts := cr.text_parts ++ [text] }) }

/-- `RenderState.end_comment_range`. -/
def RenderState.end_comment_range (st : RenderState) (cid : String) : RenderState :=
  match st.findRange cid with
  | none => st
  | some cr =>
      let active' := st.active_comment_ranges.filter (fun c => !(c.comment_id == cid))
      let original := collapseWs (pyStrip (String.join cr.text_parts))
      match lookupComment st.comments cid with
      | some comment =>
          if st.emitted_comment_ids.contains cid then
            { st with active_comment_ranges := active' }
          else
            let cc : CollectedComment :=
              { comment_id := cid, author := comment.author, date := comment.date,
                original_text := original, comment_text := comment.text }
            { st with active_comment_ranges := active',
                      collected_comments := st.collected_comments ++ [cc],
                      emitted_comment_ids := st.emitted_comment_ids ++ [cid],
                      history := st.history ++ [cc] }
      | none => { st with active_comment_ranges := active' }

/-- `RenderState.handle_comment_reference`. -/
def RenderState.handle_comment_reference (st : RenderState) (cid : String) : RenderState :=
  if st.emitted_comment_ids.contains cid then st
  else if (st.findRange cid).isSome then st
  else
    match lookupComment st.comments cid with
    | some comment =>
        let cc : CollectedComment :=
          { comment_id := cid, author := comment.author, date := comment.date,
            original_text := "", comment_text := comment.text }
        { st with collected_comments := st.collected_comments ++ [cc],
                  emitted_comment_ids := st.emitted_comment_ids ++ [cid],
                  history := st.history ++ [cc] }
    | none => st

/-- `RenderState.pop_collected_comments`. -/
def RenderState.pop_collected_comments (st : RenderState) :
    List CollectedComment × RenderState :=
  (st.collected_comments, { st with collected_comments := [] })

/-- `"  " * ilvl`. -/
def indentOf (ilvl : Nat) : String := String.join (List.replicate ilvl "  ")

def orderedFormats : List String :=
  ["decimal", "upperLetter", "lowerLetter", "upperRoman", "lowerRoman"]

/-- `RenderState.get_list_marker`. -/
def RenderState.get_list_marker (st : RenderState) (num_id : String) (ilvl : Nat) :
    String × RenderState :=
  match st.numbering.get_level num_id ilvl with
  | none => ("- ", st)
  | some level =>
      let indent := indentOf ilvl
      if level.num_fmt = "bullet" then (indent ++ "- ", st)
      else if level.num_fmt ∈ orderedFormats then
        let key := (num_id, ilvl)
        let count := (st.list_counters key).getD level.start
        (indent ++ toString count ++ ". ",
         { st with list_counters := fun k => if k = key then some (count + 1) else st.list_counters k })
      else (indent ++ "- ", st)

/-- `RenderState.reset_list_counter` (present in the source, never called). -/
def RenderState.reset_list_counter (st : RenderState) (num_id : String) (ilvl : Nat) :
    RenderState :=
  match st.numbering.get_level num_id ilvl with
  | none => st
  | some level =>
      { st with list_counters :=
          fun k => if k = (num_id, ilvl) then some level.start else st.list_counters k }

/-- `RenderState.get_heading_level` (`if not style_id` covers `None` and `""`). -/
def RenderState.get_heading_level (st : RenderState) (style_id : Option String) : Option Nat :=
  match style_id with
  | none => none
  | some sid => if sid = "" then none else st.styles.heading_levels sid

/-- Run formatting context (`RunContext`), all flags default `False`. -/
structure RunContext where
  highlight : Bool := false
  bold : Bool := false
  italic : Bool := false
  deriving Repr, DecidableEq

/-- One element of `RenderOut.parts`.  The source stores plain strings;
    the embedding tags each stored fragment with its provenance (marker
    vs. text) so marker balance can be stated; rendering a token to its
    string recovers exactly what the source appends. -/
inductive Tok where
  | hl
  | bold
  | it
  | str (s : String)
  deriving Repr, DecidableEq

def Tok.toStr : Tok → String
  | .hl => "=="
  | .bold => "**"
  | .it => "*"
  | .str s => s

structure RenderOut where
  parts : List Tok
  highlight_open : Bool
  bold_open : Bool
  italic_open : Bool
  deriving Repr, DecidableEq

def RenderOut.fresh : RenderOut := ⟨[], false, false, false⟩

/-- `RenderOut._close_all_formats`: italic, then bold, then highlight. -/
def RenderOut.close_all_formats (o : RenderOut) : RenderOut :=
  let o := if o.italic_open then { o with parts := o.parts ++ [.it], italic_open := false } else o
  let o := if o.bold_open then { o with parts := o.parts ++ [.bold], bold_open := false } else o
  if o.highlight_open then { o with parts := o.parts ++ [.hl], highlight_open := false } else o

/-- `RenderOut.append_text`: forward the raw text to all active comment
    ranges, then toggle highlight, bold, italic markers toward the
    desired context (each an `if`/`elif` toggle), then append the text. -/
def RenderOut.append_text (o : RenderOut) (text : String) (ctx : RunContext)
    (st : RenderState) : RenderOut × RenderState :=
  if text = "" then (o, st)
  else
    let st := st.append_to_active_ranges text
    let o :=
      if ctx.highlight ∧ !o.highlight_open then
        { o with parts := o.parts ++ [.hl], highlight_open := true }
      else if !ctx.highlight ∧ o.highlight_open then
        { o with parts := o.parts ++ [.hl], highlight_open := false }
      else o
    let o :=
      if ctx.bold ∧ !o.bold_open then
        { o with parts := o.parts ++ [.bold], bold_open := true }
      else if !ctx.bold ∧ o.bold_open then
        { o with parts := o.parts ++ [.bold], bold_open := false }
      else o
    let o :=
      if ctx.italic ∧ !o.italic_open then
        { o with parts := o.parts ++ [.it], italic_open := true }
      else if !ctx.italic ∧ o.italic_open then
        { o with parts := o.parts ++ [.it], italic_open := false }
      else o
    ({ o with parts := o.parts ++ [.str text] }, st)

/-- `RenderOut.append_literal`: close all formats, then append the
    literal and forward it to active comment ranges when non-empty.
    The source's `state` parameter is `Optional` but every render-path
    call site passes the state, so it is taken non-optionally here. -/
def RenderOut.append_literal (o : RenderOut) (lit : String) (st : RenderState) :
    RenderOut × RenderState :=
  let o := o.close_all_formats
  if lit = "" then (o, st)
  else ({ o with parts := o.parts ++ [.str lit] }, st.append_to_active_ranges lit)

/-- `RenderOut.finish`: close all formats and join the parts. -/
def RenderOut.finish (o : RenderOut) : String :=
  String.join (o.close_all_formats.parts.map Tok.toStr)

/-! ## Paragraph properties and table line emission -/

/-- `ParagraphProps` as extracted by `_get_paragraph_props`. -/
structure ParagraphProps where
  style_id : Option String := none
  num_id : Option String := none
  ilvl : Nat := 0
  deriving Repr, DecidableEq

/-- The emission half of `_render_table` (lines 680-698): maximum cell
    count, right-padding of short rows, `"| " + " | ".join + " |"` lines,
    and the unconditional `"---"` separator right after the first row.
    The enumerated loop appends its lines in this order; `renderTable`
    below feeds them to `append_literal` one by one. -/
def renderTableLines (rows : List (List String)) : List String :=
  match rows with
  | [] => []
  | _ =>
      let max_cols := (rows.map List.length).foldl Nat.max 0
      if max_cols = 0 then []
      else
        rows.enum.flatMap (fun ir =>
          let padded := ir.2 ++ List.replicate (max_cols - ir.2.length) ""
          let line := "| " ++ String.intercalate " | " padded ++ " |"
          if ir.1 = 0 then
            [line, "| " ++ String.intercalate " | " (List.replicate max_cols "---") ++ " |"]
          else [line])

/-! ## Content tree and recursive renderer (`_render_node`)

A `Node` is a parsed content element.  Attribute extraction is the
boundary: marker ids arrive as the optional `w:id` attribute, a run
carries the `RunContext` parsed from its `rPr` child by
`_get_run_context`, a paragraph carries the `ParagraphProps` parsed from
its `pPr` child by `_get_paragraph_props` (so `rPr`/`pPr` need no
constructors of their own and the renderer's skips of those children are
implicit), and a table carries its rows (`tr`) of cells (`tc`) of
contained paragraphs (`.//p`).  `t`/`delText` carry `child.text or ""`.
Child sequences are the mutually inductive `NodeList` / `Rows` / `Row` /
`Cell` so the renderer is structurally recursive.  Leaf kinds (`t`,
`tab`, breaks, hyphens, `commentReference`) are only recognized inside a
run; at any other position `_render_node` reaches its generic fallback
and recurses into their (absent) children. -/

mutual

inductive Node where
  | commentRangeStart (id : Option String)
  | commentRangeEnd (id : Option String)
  | commentReference (id : Option String)
  | ins (children : NodeList)
  | del (children : NodeList)
  | run (rpr : RunContext) (children : NodeList)
  | t (text : String)
  | delText (text : String)
  | tab
  | br
  | cr
  | noBreakHyphen
  | softHyphen
  | p (props : ParagraphProps) (children : NodeList)
  | tbl (rows : Rows)
  | other (children : NodeList)

inductive NodeList where
  | nil
  | cons (hd : Node) (tl : NodeList)

inductive Rows where
  | nil
  | cons (hd : Row) (tl : Rows)

inductive Row where
  | nil
  | cons (hd : Cell) (tl : Row)

inductive Cell where
  | nil
  | cons (hd : Node) (tl : Cell)

end

mutual

/-- `_render_node`: dispatch on the node kind.  The `tbl` branch inlines
    `_render_table` (collect the row texts, then emit the pipe lines,
    each with a trailing newline, through `append_literal`); the wrapper
    `renderTable` below restates it as a named function. -/
def renderNode (n : Node) (ctx : RunContext) (out : RenderOut) (st : RenderState) :
    RenderOut × RenderState :=
  match n with
  | .commentRangeStart id =>
      match id with
      | some cid => if cid = "" then (out, st) else (out, st.start_comment_range cid)
      | none => (out, st)
  | .commentRangeEnd id =>
      match id with
      | some cid => if cid = "" then (out, st) else (out, st.end_comment_range cid)
      | none => (out, st)
  | .ins cs =>
      let r := renderList cs ctx RenderOut.fresh st
      let txt := r.1.finish
      if txt = "" then (out, r.2)
      else out.append_literal ("\x7b+" ++ txt ++ "+\x7d") r.2
  | .del cs =>
      let r := renderList cs ctx RenderOut.fresh st
      let txt := r.1.finish
      if txt = "" then (out, r.2)
      else out.append_literal ("[-" ++ txt ++ "-]") r.2
  | .run rpr cs =>
      let merged : RunContext :=
        { highlight := ctx.highlight || rpr.highlight,
          bold := ctx.bold || rpr.bold,
          italic := ctx.italic || rpr.italic }
      renderRunChildren cs merged out st
  | .p _ cs => renderList cs ctx out st
  | .tbl rows =>
      let r := renderRows rows st
      (renderTableLines r.1).foldl
        (fun acc line => acc.1.append_literal (line ++ "\n") acc.2) (out, r.2)
  | .commentReference _ | .t _ | .delText _ | .tab | .br | .cr
  | .noBreakHyphen | .softHyphen => (out, st)
  | .other cs => renderList cs ctx out st

/-- The child loop of the `w:r` branch of `_render_node`. -/
def renderRunChildren (cs : NodeList) (merged : RunContext) (out : RenderOut)
    (st : RenderState) : RenderOut × RenderState :=
  match cs with
  | .nil => (out, st)
  | .cons c rest =>
      let r :=
        match c with
        | .commentReference id =>
            match id with
            | some cid =>
                if cid = "" then (out, st) else (out, st.handle_comment_reference cid)
            | none => (out, st)
        | .t s => out.append_text s merged st
        | .delText s => out.append_text s merged st
        | .tab => out.append_literal "\t" st
        | .br => out.append_literal "\n" st
        | .cr => out.append_literal "\n" st
        | .noBreakHyphen => out.append_text "\u2011" merged st
        | .softHyphen => out.append_text "\u00AD" merged st
        | c' => renderNode c' merged out st
      renderRunChildren rest merged r.1 r.2

/-- The `for child in list(node)` loops that simply recurse. -/
def renderList (cs : NodeList) (ctx : RunContext) (out : RenderOut) (st : RenderState) :
    RenderOut × RenderState :=
  match cs with
  | .nil => (out, st)
  | .cons c rest =>
      let r := renderNode c ctx out st
      renderList rest ctx r.1 r.2

/-- The `tr` loop of `_render_table`. -/
def renderRows (rows : Rows) (st : RenderState) : List (List String) × RenderState :=
  match rows with
  | .nil => ([], st)
  | .cons r rest =>
      let c := renderCells r st
      let c2 := renderRows rest c.2
      (c.1 :: c2.1, c2.2)

/-- The `tc` loop of `_render_table`: `" ".join(cell_parts).strip()`. -/
def renderCells (cells : Row) (st : RenderState) : List String × RenderState :=
  match cells with
  | .nil => ([], st)
  | .cons c rest =>
      let r := renderCellParas c st
      let r2 := renderCells rest r.2
      (pyStrip (String.intercalate " " r.1) :: r2.1, r2.2)

/-- The cell loop of `_render_table`: each contained paragraph through
    `_render_paragraph_content` (inlined: fresh buffer, render, finish,
    rstrip), keeping non-empty contents. -/
def renderCellParas (ps : Cell) (st : RenderState) : List String × RenderState :=
  match ps with
  | .nil => ([], st)
  | .cons q rest =>
      let rq := renderNode q {} RenderOut.fresh st
      let content := pyRstrip rq.1.finish
      let r2 := renderCellParas rest rq.2
      ((if content = "" then r2.1 else content :: r2.1), r2.2)

end

/-- `_render_paragraph_content`: fresh buffer, render, finish, rstrip. -/
def renderParagraphContent (n : Node) (st : RenderState) : String × RenderState :=
  let r := renderNode n {} RenderOut.fresh st
  (pyRstrip r.1.finish, r.2)

/-- `_render_table` as a named function (definitionally the `tbl` branch
    of `renderNode`; the `_ctx` parameter is unused, as in the source). -/
def renderTable (rows : Rows) (_ctx : RunContext) (out : RenderOut)
    (st : RenderState) : RenderOut × RenderState :=
  let r := renderRows rows st
  (renderTableLines r.1).foldl
    (fun acc line => acc.1.append_literal (line ++ "\n") acc.2) (out, r.2)

/-! ## Paragraph and document assembly -/

/-- `_format_comment_block`: a blockquote with meta line and optional
    original-text / comment-text lines; falsy (absent or empty) author
    and date segments are omitted. -/
def formatCommentBlock (c : CollectedComment) : String :=
  let meta :=
    ["**[批注 #" ++ c.comment_id ++ "]**"]
      ++ (match c.author with
          | some a => if a = "" then [] else [a]
          | none => [])
      ++ (match c.date with
          | some d => if d = "" then [] else ["(" ++ d ++ ")"]
          | none => [])
  let lines :=
    ["> " ++ String.intercalate " " meta]
      ++ (if c.original_text = "" then [] else ["> **原文**：" ++ c.original_text])
      ++ (if c.comment_text = "" then [] else ["> **批注**：" ++ c.comment_text])
  String.intercalate "\n" lines

/-- `_render_paragraph`: render the content, drain the collected
    comments, choose the heading / list / plain prefix (the first two
    only when their key is truthy and the content non-empty), then
    append each comment block after a blank separator line. -/
def renderParagraph (props : ParagraphProps) (cs : NodeList) (st : RenderState) :
    List String × RenderState :=
  let rc := renderParagraphContent (.p props cs) st
  let content := rc.1
  let pc := rc.2.pop_collected_comments
  let comments := pc.1
  let st2 := pc.2
  if content = "" ∧ comments = [] then ([], st2)
  else
    let listOrPlain : List String × RenderState :=
      match props.num_id with
      | some nid =>
          if nid ≠ "" ∧ content ≠ "" then
            let m := st2.get_list_marker nid props.ilvl
            ([m.1 ++ content], m.2)
          else if content ≠ "" then ([content], st2)
          else ([], st2)
      | none => if content ≠ "" then ([content], st2) else ([], st2)
    let main : List String × RenderState :=
      match st2.get_heading_level props.style_id with
      | some lvl =>
          if lvl ≠ 0 ∧ content ≠ "" then
            ([⟨List.replicate lvl '#'⟩ ++ " " ++ content], st2)
          else listOrPlain
      | none => listOrPlain
    (main.1 ++ comments.flatMap (fun c => ["", formatCommentBlock c]), main.2)

/-- The body loop of `linearize_docx`: paragraphs through
    `_render_paragraph`, tables through `_render_table` into a fresh
    buffer whose right-trimmed text is kept when non-empty, anything
    else skipped. -/
def linearizeBody (items : List Node) (st : RenderState) : List String × RenderState :=
  match items with
  | [] => ([], st)
  | n :: rest =>
      let r : List String × RenderState :=
        match n with
        | .p props cs => renderParagraph props cs st
        | .tbl rows =>
            let t := renderTable rows {} RenderOut.fresh st
            let chunk := pyRstrip t.1.finish
            (if chunk = "" then [] else [chunk], t.2)
        | _ => ([], st)
      let r2 := linearizeBody rest r.2
      (r.1 ++ r2.1, r2.2)

/-- `linearize_docx` past its parsing boundary: thread a fresh state
    through the body, drain the comments still queued, join with
    newlines, right-trim, and add one trailing newline when non-empty. -/
def linearize (reg : List (String × Comment)) (numb : NumberingInfo) (sty : StyleInfo)
    (body : List Node) : String :=
  let st := initState reg numb sty
  let r := linearizeBody body st
  let remaining := r.2.pop_collected_comments.1
  let all := r.1 ++ remaining.flatMap (fun c => ["", formatCommentBlock c])
  let text := pyRstrip (String.intercalate "\n" all)
  if text = "" then "" else text ++ "\n"

/-! ## Trace machines for the buffer and the comment bookkeeping

`BufOp` is one call of the Format Output Buffer API (`append_text`,
`append_literal`, or a mid-sequence `finish`, which closes the open
markers); `TraceEv` is one comment-bookkeeping operation of the
Traversal Context.  Quantifying over traces states the invariants for
every API path the renderer (or any caller) can take. -/

inductive BufOp where
  | text (s : String) (ctx : RunContext)
  | lit (s : String)
  | fin

def applyBufOp (a : RenderOut × RenderState) (op : BufOp) : RenderOut × RenderState :=
  match op with
  | .text s ctx => a.1.append_text s ctx a.2
  | .lit s => a.1.append_literal s a.2
  | .fin => (a.1.close_all_formats, a.2)

def applyBufOps (a : RenderOut × RenderState) (ops : List BufOp) : RenderOut × RenderState :=
  ops.foldl applyBufOp a

inductive TraceEv where
  | startR (cid : String)
  | endR (cid : String)
  | refR (cid : String)
  | textT (s : String)
  | popC

def stepEv (st : RenderState) (e : TraceEv) : RenderState :=
  match e with
  | .startR c => st.start_comment_range c
  | .endR c => st.end_comment_range c
  | .refR c => st.handle_comment_reference c
  | .textT s => st.append_to_active_ranges s
  | .popC => st.pop_collected_comments.2

def runEvs (st : RenderState) (es : List TraceEv) : RenderState := es.foldl stepEv st

/-- Number of comment blocks ever enqueued for `cid` (counted in the
    history variable, which per-paragraph drains do not clear). -/
def histCount (st : RenderState) (cid : String) : Nat :=
  (st.history.filter (fun c => c.comment_id == cid)).length

/-- Sequence of `get_list_marker` calls, one per `(numId, ilvl)` pair. -/
def runMarkers (st : RenderState) (calls : List (String × Nat)) :
    List String × RenderState :=
  match calls with
  | [] => ([], st)
  | c :: rest =>
      let m := st.get_list_marker c.1 c.2
      let r := runMarkers m.2 rest
      (m.1 :: r.1, r.2)

/-! ## Specification accessors and concrete instances -/

/-- The accumulated text fragments of the active range for `cid`. -/
def rangePartsOf (st : RenderState) (cid : String) : Option (List String) :=
  (st.findRange cid).map (·.text_parts)

def markCount (p : Tok → Bool) (l : List Tok) : Nat := (l.filter p).length

def isIt : Tok → Bool
  | .it => true
  | _ => false

def isBold : Tok → Bool
  | .bold => true
  | _ => false

def isHl : Tok → Bool
  | .hl => true
  | _ => false

/-- Marker-balance invariant: the parity of the emitted marker tokens of
    each kind equals the corresponding open flag. -/
def bInv (o : RenderOut) : Prop :=
  markCount isIt o.parts % 2 = (if o.italic_open then 1 else 0) ∧
  markCount isBold o.parts % 2 = (if o.bold_open then 1 else 0) ∧
  markCount isHl o.parts % 2 = (if o.highlight_open then 1 else 0)

/-- Per-id link between the emitted-id set and the history of enqueued
    comment blocks. -/
def emittedInv (st : RenderState) (cid : String) : Prop :=
  histCount st cid = if cid ∈ st.emitted_comment_ids then 1 else 0

/-- Registry with the single comment id "1" (used for concrete runs). -/
def c1Registry : List (String × Comment) :=
  [("1", { comment_id := "1", author := some "Alice", date := some "2024-01-02",
           text := "fix this" })]

/-- A body whose only comment range is opened but never closed: the
    range-end marker for id "1" does not occur anywhere. -/
def c1Body : List Node :=
  [.p {} (.cons (.commentRangeStart (some "1"))
           (.cons (.run {} (.cons (.t "hi") .nil)) .nil))]

/-- Numbering table: list instance "1" maps to an abstract definition
    whose level 0 is decimal with start 1. -/
def numbDec : NumberingInfo :=
  ⟨fun a => if a = "a0" then
      some ⟨fun l => if l = 0 then some ⟨"decimal", "%1.", 1⟩ else none⟩
    else none,
   fun n => if n = "1" then some "a0" else none⟩

def stDec : RenderState := initState [] numbDec emptyStyles

/-- Numbering table: list instance "2" maps to an abstract definition
    whose level 1 is a bullet. -/
def numbBul : NumberingInfo :=
  ⟨fun a => if a = "b0" then
      some ⟨fun l => if l = 1 then some ⟨"bullet", "•", 1⟩ else none⟩
    else none,
   fun n => if n = "2" then some "b0" else none⟩

def stBul : RenderState := initState [] numbBul emptyStyles

/-- A state with two active comment ranges "A" and "B" and id "A" also
    present in the registry (used for concrete runs). -/
def stAB : RenderState :=
  { initState [("A", { comment_id := "A", author := none, date := none, text := "note" })]
      emptyNumbering emptyStyles with
    active_comment_ranges := [⟨"A", []⟩, ⟨"B", []⟩] }

/-! ## Theorems -/

theorem end_comment_range_of_not_active (st : RenderState) (cid : String)
    (h : st.findRange cid = none) : st.end_comment_range cid = st := by
  simp [RenderState.end_comment_range, h]

/-- C10: a comment-range-end event whose id has no currently active range
leaves the traversal state entirely unchanged — no range is popped, no
`CollectedComment` is enqueued, the emitted-id set is untouched —
regardless of whether the id exists in the comment registry. -/
theorem C10_rangeEnd_no_active_noop (st : RenderState) (out : RenderOut) (ctx : RunContext)
    (cid : String) (h : st.findRange cid = none) :
    st.end_comment_range cid = st ∧
    renderNode (.commentRangeEnd (some cid)) ctx out st = (out, st) := by
  have he := end_comment_range_of_not_active st cid h
  refine ⟨he, ?_⟩
  by_cases hc : cid = "" <;> simp [renderNode, hc, he]

/-- Witness for C10: id "1" is in the registry but has no active range. -/
theorem C10_rangeEnd_no_active_noop_witness :
    (initState c1Registry emptyNumbering emptyStyles).end_comment_range "1"
        = initState c1Registry emptyNumbering emptyStyles ∧
    renderNode (.commentRangeEnd (some "1")) {} RenderOut.fresh
        (initState c1Registry emptyNumbering emptyStyles)
      = (RenderOut.fresh, initState c1Registry emptyNumbering emptyStyles) :=
  C10_rangeEnd_no_active_noop _ _ _ "1" rfl

/-- C2 counterexample: when no numbering level resolves for the pair
(list id "7", depth 1), the marker returned is the bare `"- "`, not a
two-space-per-depth indented bullet as the claim states. -/
theorem C2_counterexample :
    ((initState [] emptyNumbering emptyStyles).get_list_marker "7" 1).1 = "- " ∧
    ((initState [] emptyNumbering emptyStyles).get_list_marker "7" 1).1 ≠ indentOf 1 ++ "- " := by
  exact ⟨rfl, by decide⟩

/-- C2 amended: when no numbering level resolves for a `(listId, depth)`
pair, `get_list_marker` returns the default bullet marker `"- "` with no
indentation, for every depth, and leaves the state unchanged. -/
theorem C2_default_marker_no_indent (st : RenderState) (num_id : String) (ilvl : Nat)
    (h : st.numbering.get_level num_id ilvl = none) :
    st.get_list_marker num_id ilvl = ("- ", st) := by
  simp [RenderState.get_list_marker, h]

/-- Witness for the amended C2 at depth 1 with an empty numbering table. -/
theorem C2_default_marker_no_indent_witness :
    (initState [] emptyNumbering emptyStyles).get_list_marker "7" 1
      = ("- ", initState [] emptyNumbering emptyStyles) :=
  C2_default_marker_no_indent _ "7" 1 rfl

/-- C7: when a style carries both an outline level `o` (0-5) and a
display name matching the case-insensitive "heading N" / "标题 N" pattern
with N in 1-6, processing the style records heading level N for its id —
the name-pattern value overwrites the outline-derived one — whereas the
same style without the display name records `o + 1`. -/
theorem C7_name_pattern_overrides_outline (m : String → Option Nat) (d : StyleDecl)
    (sid : String) (o : Int) (nm : String) (n : Nat)
    (hsid : d.style_id = some sid) (hne : sid ≠ "")
    (hout : d.outline = some o) (ho0 : 0 ≤ o) (ho5 : o ≤ 5)
    (hnm : d.name = some nm) (hmatch : matchHeadingNum (pyLower nm) = some n)
    (hn1 : 1 ≤ n) (hn6 : n ≤ 6) :
    processStyle m d sid = some n ∧
    processStyle m { d with name := none } sid = some (o.toNat + 1) := by
  constructor
  · unfold processStyle
    simp only [hsid, hout, hnm, hmatch]
    simp [hne, ho0, ho5, hn1, hn6]
  · unfold processStyle
    simp only [hsid, hout]
    simp [hne, ho0, ho5]

/-- Witness for C7: outline level 1 (heading 2) plus display name
"Heading 1" resolves to heading level 1; without the name it would be 2. -/
theorem C7_name_pattern_overrides_outline_witness :
    processStyle (fun _ => none) ⟨some "S1", some 1, some "Heading 1"⟩ "S1" = some 1 ∧
    processStyle (fun _ => none) ⟨some "S1", some 1, none⟩ "S1" = some 2 :=
  C7_name_pattern_overrides_outline (fun _ => none) ⟨some "S1", some 1, some "Heading 1"⟩
    "S1" 1 "Heading 1" 1 rfl (by decide) rfl (by decide) (by decide) rfl
    (by decide) (by decide) (by decide)

theorem le_foldl_max (l : List Nat) (a : Nat) : a ≤ l.foldl Nat.max a := by
  induction l generalizing a with
  | nil => simp
  | cons b t ih => exact le_trans (Nat.le_max_left a b) (ih (Nat.max a b))

theorem mem_le_foldl_max {x : Nat} (l : List Nat) (a : Nat) (hx : x ∈ l) :
    x ≤ l.foldl Nat.max a := by
  induction l generalizing a with
  | nil => cases hx
  | cons b t ih =>
      rcases List.mem_cons.mp hx with h | h
      · subst h
        exact le_trans (Nat.le_max_right a x) (le_foldl_max t _)
      · exact ih _ h

theorem tableLines_tail (rest : List (List String)) (m : Nat) :
    ∀ k : Nat, k ≠ 0 →
      (rest.enumFrom k).flatMap (fun ir =>
        let padded := ir.2 ++ List.replicate (m - ir.2.length) ""
        let line := "| " ++ String.intercalate " | " padded ++ " |"
        if ir.1 = 0 then
          [line, "| " ++ String.intercalate " | " (List.replicate m "---") ++ " |"]
        else [line])
      = rest.map (fun r =>
          "| " ++ String.intercalate " | " (r ++ List.replicate (m - r.length) "") ++ " |") := by
  induction rest with
  | nil => intro k _; rfl
  | cons r t ih =>
      intro k hk
      simp only [List.enumFrom, List.flatMap_cons, List.map_cons, ih (k + 1) (Nat.succ_ne_zero k)]
      simp [hk]

/-- C8: for a table with at least one row and one cell, every row is
right-padded with empty cells to the maximum cell count, each row is
emitted as `"| " ++ cells.join(" | ") ++ " |"`, and immediately after the
first row an unconditional separator row of the same width with all
`"---"` cells is emitted. -/
theorem C8_table_flattening (rows : List (List String)) (r0 : List String)
    (rest : List (List String)) (m : Nat)
    (hrows : rows = r0 :: rest) (hm : m = (rows.map List.length).foldl Nat.max 0)
    (hpos : 0 < m) :
    renderTableLines rows =
      ("| " ++ String.intercalate " | " (r0 ++ List.replicate (m - r0.length) "") ++ " |")
        :: ("| " ++ String.intercalate " | " (List.replicate m "---") ++ " |")
        :: rest.map (fun r =>
             "| " ++ String.intercalate " | " (r ++ List.replicate (m - r.length) "") ++ " |")
    ∧ ∀ r ∈ rows, (r ++ List.replicate (m - r.length) "").length = m := by
  constructor
  · subst hrows
    unfold renderTableLines
    rw [← hm]
    have hne : ¬ m = 0 := Nat.pos_iff_ne_zero.mp hpos
    simp only [hne, if_false, List.enum, List.enumFrom, List.flatMap_cons,
      tableLines_tail rest m 1 (Nat.one_ne_zero)]
    simp
  · intro r hr
    have hle : r.length ≤ m := by
      rw [hm]
      exact mem_le_foldl_max _ 0 (List.mem_map_of_mem List.length hr)
    simp [List.length_append, List.length_replicate, Nat.add_sub_cancel' hle]

/-- Witness for C8: rows of 2 and 3 cells; the 2-cell row is padded and
the 3-wide `---` separator follows row 1. -/
theorem C8_table_flattening_witness :
    renderTableLines [["a", "b"], ["c", "d", "e"]]
        = ["| a | b |  |", "| --- | --- | --- |", "| c | d | e |"]
    ∧ ∀ r ∈ [["a", "b"], ["c", "d", "e"]],
        (r ++ List.replicate (3 - r.length) "").length = 3 := by
  have h := C8_table_flattening [["a", "b"], ["c", "d", "e"]] ["a", "b"] [["c", "d", "e"]] 3
    rfl (by decide) (by decide)
  exact ⟨by rw [h.1]; rfl, h.2⟩

theorem find?_map_parts (l : List CommentRange) (cid : String) (t : String) :
    (l.map (fun cr => { cr with text_parts := cr.text_parts ++ [t] })).find?
        (fun cr => cr.comment_id == cid)
      = (l.find? (fun cr => cr.comment_id == cid)).map
          (fun cr => { cr with text_parts := cr.text_parts ++ [t] }) := by
  induction l with
  | nil => rfl
  | cons c rest ih =>
      by_cases h : c.comment_id == cid <;> simp [List.find?_cons, h, ih]

theorem rangePartsOf_append (st : RenderState) (cid : String) (t : String)
    (ps : List String) (h : rangePartsOf st cid = some ps) :
    rangePartsOf (st.append_to_active_ranges t) cid = some (ps ++ [t]) := by
  unfold rangePartsOf RenderState.findRange at *
  unfold RenderState.append_to_active_ranges
  simp only [find?_map_parts]
  cases hf : st.active_comment_ranges.find? (fun cr => cr.comment_id == cid) with
  | none => rw [hf] at h; cases h
  | some cr =>
      rw [hf] at h
      simp at h
      simp [← h]

/-- C6: every non-empty text fragment emitted through the buffer is
appended to the accumulated text of every currently active comment
range, so simultaneously active (overlapping) ranges each receive it. -/
theorem C6_text_reaches_every_active_range (out : RenderOut) (st : RenderState)
    (t : String) (ctx : RunContext) (cid : String) (ps : List String)
    (ht : t ≠ "") (h : rangePartsOf st cid = some ps) :
    rangePartsOf (out.append_text t ctx st).2 cid = some (ps ++ [t]) := by
  have hsnd : (out.append_text t ctx st).2 = st.append_to_active_ranges t := by
    unfold RenderOut.append_text
    simp [ht]
  rw [hsnd]
  exact rangePartsOf_append st cid t ps h

/-- Witness for C6: ranges "A" and "B" both active before the text "x";
both accumulate exactly `["x"]`. -/
theorem C6_text_reaches_every_active_range_witness :
    rangePartsOf (RenderOut.fresh.append_text "x" {} stAB).2 "A" = some ["x"] ∧
    rangePartsOf (RenderOut.fresh.append_text "x" {} stAB).2 "B" = some ["x"] :=
  ⟨C6_text_reaches_every_active_range RenderOut.fresh stAB "x" {} "A" [] (by decide) rfl,
   C6_text_reaches_every_active_range RenderOut.fresh stAB "x" {} "B" [] (by decide) rfl⟩

theorem empty_append_str (s : String) : "" ++ s = s := by
  obtain ⟨l⟩ := s
  rfl

theorem append_right_ne_empty (a b : String) (hb : b.data ≠ []) : (a ++ b) ≠ "" := by
  obtain ⟨la⟩ := a
  obtain ⟨lb⟩ := b
  intro h
  have h2 : la ++ lb = ([] : List Char) := congrArg String.data h
  exact hb (List.append_eq_nil.mp h2).2

theorem append_literal_snd (o : RenderOut) (st : RenderState) (lit : String)
    (hl : lit ≠ "") : (o.append_literal lit st).2 = st.append_to_active_ranges lit := by
  simp [RenderOut.append_literal, hl]

theorem renderList_single_run (s : String) (st : RenderState) (hs : s ≠ "") :
    renderList (.cons (.run {} (.cons (.t s) .nil)) .nil) {} RenderOut.fresh st
      = (⟨[.str s], false, false, false⟩, st.append_to_active_ranges s) := by
  show RenderOut.fresh.append_text s {} st = _
  simp [RenderOut.append_text, RenderOut.fresh, hs]

theorem finish_single_str (s : String) :
    (⟨[.str s], false, false, false⟩ : RenderOut).finish = s := by
  simp [RenderOut.finish, RenderOut.close_all_formats, String.join, Tok.toStr,
    empty_append_str]

/-- C9: for a comment range active around a tracked insertion or deletion
whose rendered inner text is the non-empty `s`, the range receives the
inner text twice — once as the raw fragment while the isolated inner
buffer is filled, and once inside the wrapped literal appended to the
parent buffer. -/
theorem C9_revision_wrap_duplicates (out : RenderOut) (st : RenderState) (s : String)
    (cid : String) (ps : List String) (hs : s ≠ "") (h : rangePartsOf st cid = some ps) :
    rangePartsOf (renderNode (.ins (.cons (.run {} (.cons (.t s) .nil)) .nil)) {} out st).2 cid
        = some (ps ++ [s, "\x7b+" ++ s ++ "+\x7d"]) ∧
    rangePartsOf (renderNode (.del (.cons (.run {} (.cons (.t s) .nil)) .nil)) {} out st).2 cid
        = some (ps ++ [s, "[-" ++ s ++ "-]"]) := by
  have h1 := rangePartsOf_append st cid s ps h
  constructor
  · have hlit : ("\x7b+" ++ s ++ "+\x7d") ≠ "" :=
      append_right_ne_empty _ "+\x7d" (by decide)
    have hstep : (renderNode (.ins (.cons (.run {} (.cons (.t s) .nil)) .nil)) {} out st).2
        = (st.append_to_active_ranges s).append_to_active_ranges ("\x7b+" ++ s ++ "+\x7d") := by
      simp [renderNode, renderList_single_run s st hs, finish_single_str, hs,
        append_literal_snd _ _ _ hlit]
    rw [hstep]
    have h2 := rangePartsOf_append _ cid ("\x7b+" ++ s ++ "+\x7d") _ h1
    simpa using h2
  · have hlit : ("[-" ++ s ++ "-]") ≠ "" :=
      append_right_ne_empty _ "-]" (by decide)
    have hstep : (renderNode (.del (.cons (.run {} (.cons (.t s) .nil)) .nil)) {} out st).2
        = (st.append_to_active_ranges s).append_to_active_ranges ("[-" ++ s ++ "-]") := by
      simp [renderNode, renderList_single_run s st hs, finish_single_str, hs,
        append_literal_snd _ _ _ hlit]
    rw [hstep]
    have h2 := rangePartsOf_append _ cid ("[-" ++ s ++ "-]") _ h1
    simpa using h2

/-- Witness for C9: range "A" active around an insertion and a deletion
of the text "x" collects the raw fragment and the wrapped literal. -/
theorem C9_revision_wrap_duplicates_witness :
    rangePartsOf (renderNode (.ins (.cons (.run {} (.cons (.t "x") .nil)) .nil)) {} RenderOut.fresh stAB).2 "A"
        = some ["x", "\x7b+x+\x7d"] ∧
    rangePartsOf (renderNode (.del (.cons (.run {} (.cons (.t "x") .nil)) .nil)) {} RenderOut.fresh stAB).2 "A"
        = some ["x", "[-x-]"] := by
  have h := C9_revision_wrap_duplicates RenderOut.fresh stAB "x" "A" [] (by decide) rfl
  exact ⟨h.1, h.2⟩

theorem markCount_append (p : Tok → Bool) (l l2 : List Tok) :
    markCount p (l ++ l2) = markCount p l + markCount p l2 := by
  simp [markCount, List.filter_append]

theorem markCount_cons (p : Tok → Bool) (x : Tok) (l : List Tok) :
    markCount p (x :: l) = (if p x then 1 else 0) + markCount p l := by
  by_cases h : p x <;> simp [markCount, List.filter_cons, h, Nat.add_comm]

theorem markCount_nil (p : Tok → Bool) : markCount p [] = 0 := rfl

theorem bInv_fresh : bInv RenderOut.fresh := by
  simp [bInv, RenderOut.fresh, markCount]

theorem bInv_close_all (o : RenderOut) (h : bInv o) : bInv o.close_all_formats := by
  obtain ⟨h1, h2, h3⟩ := h
  rcases o with ⟨parts, hl, bo, it⟩
  unfold RenderOut.close_all_formats
  simp only [bInv] at *
  cases hl <;> cases bo <;> cases it <;>
    simp_all [markCount_append, markCount_cons, markCount_nil, isIt, isBold, isHl] <;> omega

theorem bInv_append_text (o : RenderOut) (t : String) (ctx : RunContext) (st : RenderState)
    (h : bInv o) : bInv (o.append_text t ctx st).1 := by
  obtain ⟨h1, h2, h3⟩ := h
  unfold RenderOut.append_text
  by_cases ht : t = ""
  · simp only [ht, if_true, reduceIte]
    exact ⟨h1, h2, h3⟩
  · rcases o with ⟨parts, hl, bo, it⟩
    rcases ctx with ⟨ch, cb, ci⟩
    simp only [bInv] at *
    cases ch <;> cases hl <;> cases cb <;> cases bo <;> cases ci <;> cases it <;>
      simp_all [markCount_append, markCount_cons, markCount_nil, isIt, isBold, isHl] <;> omega

theorem bInv_append_literal (o : RenderOut) (lit : String) (st : RenderState)
    (h : bInv o) : bInv (o.append_literal lit st).1 := by
  have hc := bInv_close_all o h
  obtain ⟨h1, h2, h3⟩ := hc
  unfold RenderOut.append_literal
  by_cases hl : lit = ""
  · simpa [hl] using ⟨h1, h2, h3⟩
  · simp only [bInv, hl]
    refine ⟨?_, ?_, ?_⟩ <;>
      simp_all [markCount_append, markCount_cons, markCount_nil, isIt, isBold, isHl]

theorem close_all_flags (o : RenderOut) :
    o.close_all_formats.italic_open = false ∧ o.close_all_formats.bold_open = false ∧
    o.close_all_formats.highlight_open = false := by
  rcases o with ⟨parts, hl, bo, it⟩
  unfold RenderOut.close_all_formats
  cases hl <;> cases bo <;> cases it <;> simp

theorem bInv_applyBufOps (ops : List BufOp) :
    ∀ a : RenderOut × RenderState, bInv a.1 → bInv (applyBufOps a ops).1 := by
  induction ops with
  | nil => exact fun a h => h
  | cons op rest ih =>
      intro a h
      have hstep : bInv (applyBufOp a op).1 := by
        cases op with
        | text s ctx => exact bInv_append_text a.1 s ctx a.2 h
        | lit s => exact bInv_append_literal a.1 s a.2 h
        | fin => exact bInv_close_all a.1 h
      simpa [applyBufOps, List.foldl] using ih _ hstep

/-- C3: every buffer reachable from a fresh one by any sequence of
`append_text` / `append_literal` / `finish` calls yields, at `finish`, a
token stream with an even number of italic, bold, and highlight marker
tokens (every marker opened is closed — the joined string is the value
`finish` returns), and `_close_all_formats` closes markers still open in
the fixed order italic, then bold, then highlight. -/
theorem C3_finish_always_balanced (st : RenderState) (ops : List BufOp) :
    ((applyBufOps (RenderOut.fresh, st) ops).1.finish
        = String.join
            ((applyBufOps (RenderOut.fresh, st) ops).1.close_all_formats.parts.map Tok.toStr) ∧
     markCount isIt (applyBufOps (RenderOut.fresh, st) ops).1.close_all_formats.parts % 2 = 0 ∧
     markCount isBold (applyBufOps (RenderOut.fresh, st) ops).1.close_all_formats.parts % 2 = 0 ∧
     markCount isHl (applyBufOps (RenderOut.fresh, st) ops).1.close_all_formats.parts % 2 = 0) ∧
    (∀ o : RenderOut, o.italic_open = true → o.bold_open = true → o.highlight_open = true →
        o.close_all_formats.parts = o.parts ++ [.it, .bold, .hl]) := by
  constructor
  · have hinv := bInv_applyBufOps ops (RenderOut.fresh, st) bInv_fresh
    obtain ⟨c1, c2, c3⟩ := bInv_close_all _ hinv
    obtain ⟨f1, f2, f3⟩ := close_all_flags (applyBufOps (RenderOut.fresh, st) ops).1
    rw [f1] at c1
    rw [f2] at c2
    rw [f3] at c3
    simp at c1 c2 c3
    exact ⟨rfl, c1, c2, c3⟩
  · intro o h1 h2 h3
    rcases o with ⟨parts, hl, bo, it⟩
    simp only at h1 h2 h3
    subst h1 h2 h3
    simp [RenderOut.close_all_formats]

theorem scr_fields (st : RenderState) (c : String) :
    (st.start_comment_range c).history = st.history ∧
    (st.start_comment_range c).emitted_comment_ids = st.emitted_comment_ids := by
  unfold RenderState.start_comment_range
  by_cases hf : (st.findRange c).isSome <;> simp [hf]

/-- `end_comment_range` either leaves the history and emitted-id set
    unchanged, or — only when the id is not yet emitted — appends one
    block for that id to both. -/
theorem end_cr_fields (st : RenderState) (c : String) :
    ((st.end_comment_range c).history = st.history ∧
     (st.end_comment_range c).emitted_comment_ids = st.emitted_comment_ids) ∨
    (¬ (c ∈ st.emitted_comment_ids) ∧
     ∃ cc : CollectedComment, cc.comment_id = c ∧
       (st.end_comment_range c).history = st.history ++ [cc] ∧
       (st.end_comment_range c).emitted_comment_ids = st.emitted_comment_ids ++ [c]) := by
  unfold RenderState.end_comment_range
  cases hf : st.findRange c with
  | none => left; exact ⟨rfl, rfl⟩
  | some cr =>
      cases hl : lookupComment st.comments c with
      | none => left; exact ⟨rfl, rfl⟩
      | some cm =>
          by_cases hc : c ∈ st.emitted_comment_ids
          · left
            simp [hc]
          · right
            refine ⟨hc, ⟨⟨c, cm.author, cm.date,
              collapseWs (pyStrip (String.join cr.text_parts)), cm.text⟩, rfl, ?_, ?_⟩⟩ <;>
              simp [hc]

/-- Same dichotomy for `handle_comment_reference`. -/
theorem ref_fields (st : RenderState) (c : String) :
    ((st.handle_comment_reference c).history = st.history ∧
     (st.handle_comment_reference c).emitted_comment_ids = st.emitted_comment_ids) ∨
    (¬ (c ∈ st.emitted_comment_ids) ∧
     ∃ cc : CollectedComment, cc.comment_id = c ∧
       (st.handle_comment_reference c).history = st.history ++ [cc] ∧
       (st.handle_comment_reference c).emitted_comment_ids = st.emitted_comment_ids ++ [c]) := by
  unfold RenderState.handle_comment_reference
  by_cases hc : c ∈ st.emitted_comment_ids
  · left; simp [hc]
  · by_cases hf : (st.findRange c).isSome
    · left; simp [hc, hf]
    · cases hl : lookupComment st.comments c with
      | none => left; simp [hc, hf, hl]
      | some cm =>
          right
          refine ⟨hc, ⟨⟨c, cm.author, cm.date, "", cm.text⟩, rfl, ?_, ?_⟩⟩ <;>
            simp [hc, hf, hl]

theorem emittedInv_grow (st : RenderState) (c cid : String) (cc : CollectedComment)
    (hccid : cc.comment_id = c) (hc : ¬ (c ∈ st.emitted_comment_ids))
    (h : emittedInv st cid) :
    (((st.history ++ [cc]).filter (fun x => x.comment_id == cid)).length : Nat)
      = if cid ∈ st.emitted_comment_ids ++ [c] then 1 else 0 := by
  unfold emittedInv histCount at h
  by_cases hcid : cid = c
  · subst hcid
    simp_all [List.filter_append]
  · have hne : ¬ (cc.comment_id = cid) := by
      rw [hccid]
      exact fun hx => hcid hx.symm
    simp_all [List.filter_append]

theorem emittedInv_step (st : RenderState) (e : TraceEv) (cid : String)
    (h : emittedInv st cid) : emittedInv (stepEv st e) cid := by
  cases e with
  | startR c =>
      show emittedInv (st.start_comment_range c) cid
      unfold emittedInv histCount at *
      rw [(scr_fields st c).1, (scr_fields st c).2]
      exact h
  | textT s =>
      show emittedInv (st.append_to_active_ranges s) cid
      unfold emittedInv histCount at *
      exact h
  | popC =>
      show emittedInv st.pop_collected_comments.2 cid
      unfold emittedInv histCount at *
      exact h
  | endR c =>
      show emittedInv (st.end_comment_range c) cid
      rcases end_cr_fields st c with ⟨hh, he⟩ | ⟨hc, cc, hccid, hh, he⟩
      · unfold emittedInv histCount at *
        rw [hh, he]
        exact h
      · unfold emittedInv histCount
        rw [hh, he]
        exact emittedInv_grow st c cid cc hccid hc h
  | refR c =>
      show emittedInv (st.handle_comment_reference c) cid
      rcases ref_fields st c with ⟨hh, he⟩ | ⟨hc, cc, hccid, hh, he⟩
      · unfold emittedInv histCount at *
        rw [hh, he]
        exact h
      · unfold emittedInv histCount
        rw [hh, he]
        exact emittedInv_grow st c cid cc hccid hc h

theorem emittedInv_runEvs (es : List TraceEv) :
    ∀ st : RenderState, ∀ cid : String, emittedInv st cid → emittedInv (runEvs st es) cid := by
  induction es with
  | nil => exact fun st cid h => h
  | cons e rest ih =>
      intro st cid h
      have hstep := emittedInv_step st e cid h
      simpa [runEvs, List.foldl] using ih (stepEv st e) cid hstep

/-- C4: over any document traversal — any sequence of comment-range
starts and ends, bare references, text appends, and per-paragraph
drains, starting from a fresh state over any registry — at most one
`CollectedComment` is ever enqueued for each comment id; whichever of
the two triggers (range-end or bare reference) fires first emits the
block and the other is ignored. -/
theorem C4_at_most_one_block_per_id (reg : List (String × Comment)) (numb : NumberingInfo)
    (sty : StyleInfo) (es : List TraceEv) (cid : String) :
    histCount (runEvs (initState reg numb sty) es) cid ≤ 1 := by
  have h0 : emittedInv (initState reg numb sty) cid := by
    simp [emittedInv, histCount, initState]
  have h := emittedInv_runEvs es (initState reg numb sty) cid h0
  unfold emittedInv at h
  rw [h]
  split <;> norm_num

theorem bullet_not_ordered : ¬ ("bullet" ∈ orderedFormats) := by decide

theorem get_list_marker_numbering (st : RenderState) (nid : String) (il : Nat) :
    (st.get_list_marker nid il).2.numbering = st.numbering := by
  unfold RenderState.get_list_marker
  cases hres : st.numbering.get_level nid il with
  | none => rfl
  | some lvl =>
      by_cases hb : lvl.num_fmt = "bullet"
      · simp [hb]
      · by_cases ho : lvl.num_fmt ∈ orderedFormats <;> simp [hb, ho]

theorem get_list_marker_counters_frame (st : RenderState) (nid : String) (il : Nat)
    (q : String × Nat) (hq : q ≠ (nid, il)) :
    (st.get_list_marker nid il).2.list_counters q = st.list_counters q := by
  unfold RenderState.get_list_marker
  cases hres : st.numbering.get_level nid il with
  | none => rfl
  | some lvl =>
      by_cases hb : lvl.num_fmt = "bullet"
      · simp [hb]
      · by_cases ho : lvl.num_fmt ∈ orderedFormats <;> simp [hb, ho, hq]

theorem get_list_marker_ordered (st : RenderState) (nid : String) (il : Nat)
    (lvl : NumberingLevel) (hres : st.numbering.get_level nid il = some lvl)
    (ho : lvl.num_fmt ∈ orderedFormats) :
    st.get_list_marker nid il =
      (indentOf il ++ toString ((st.list_counters (nid, il)).getD lvl.start) ++ ". ",
       { st with list_counters :=
           (fun k => if k = (nid, il) then
              some ((st.list_counters (nid, il)).getD lvl.start + 1)
            else st.list_counters k) }) := by
  have hb : ¬ (lvl.num_fmt = "bullet") := fun hx => bullet_not_ordered (hx ▸ ho)
  unfold RenderState.get_list_marker
  rw [hres]
  simp [hb, ho]

theorem get_list_marker_bullet (st : RenderState) (nid : String) (il : Nat)
    (lvl : NumberingLevel) (hres : st.numbering.get_level nid il = some lvl)
    (hb : lvl.num_fmt = "bullet") :
    st.get_list_marker nid il = (indentOf il ++ "- ", st) := by
  unfold RenderState.get_list_marker
  rw [hres]
  simp [hb]

theorem runMarkers_numbering (calls : List (String × Nat)) :
    ∀ st : RenderState, (runMarkers st calls).2.numbering = st.numbering := by
  induction calls with
  | nil => intro st; rfl
  | cons c rest ih =>
      intro st
      show (runMarkers (st.get_list_marker c.1 c.2).2 rest).2.numbering = st.numbering
      rw [ih, get_list_marker_numbering]

theorem runMarkers_counter (nid : String) (il : Nat) (lvl : NumberingLevel)
    (ho : lvl.num_fmt ∈ orderedFormats) (calls : List (String × Nat)) :
    ∀ (st : RenderState) (j : Nat),
      st.numbering.get_level nid il = some lvl →
      st.list_counters (nid, il) = (if j = 0 then none else some (lvl.start + j)) →
      (runMarkers st calls).2.list_counters (nid, il)
        = (if j + calls.count (nid, il) = 0 then none
           else some (lvl.start + (j + calls.count (nid, il)))) := by
  induction calls with
  | nil => intro st j _ hcnt; simpa using hcnt
  | cons c rest ih =>
      intro st j hres hcnt
      show (runMarkers (st.get_list_marker c.1 c.2).2 rest).2.list_counters (nid, il) = _
      by_cases hc : c = (nid, il)
      · subst hc
        rw [get_list_marker_ordered st nid il lvl hres ho]
        have hgetd : (st.list_counters (nid, il)).getD lvl.start = lvl.start + j := by
          rw [hcnt]
          by_cases hj : j = 0 <;> simp [hj]
        have hcast : (lvl.start + ↑j + 1 : Int) = lvl.start + ((j : Int) + 1) := by ring
        have hnext := ih ({ st with list_counters :=
            (fun k => if k = (nid, il) then
               some ((st.list_counters (nid, il)).getD lvl.start + 1)
             else st.list_counters k) }) (j + 1) (by simpa using hres)
          (by simp [hgetd, hcast])
        rw [hnext]
        have hcount : ((nid, il) :: rest).count (nid, il) = rest.count (nid, il) + 1 := by
          simp [List.count_cons]
        rw [hcount]
        have harith : j + 1 + rest.count (nid, il) = j + (rest.count (nid, il) + 1) := by omega
        rw [harith]
        have hne : ¬ (j + (rest.count (nid, il) + 1) = 0) := by omega
        have hne2 : ¬ (j + 1 + rest.count (nid, il) = 0) := by omega
        simp only [hne, hne2, if_false]
        congr 1
        push_cast
        ring
      · have hres2 : (st.get_list_marker c.1 c.2).2.numbering.get_level nid il = some lvl := by
          rw [get_list_marker_numbering]
          exact hres
        have hcnt2 : (st.get_list_marker c.1 c.2).2.list_counters (nid, il)
            = (if j = 0 then none else some (lvl.start + j)) := by
          have hq : (nid, il) ≠ (c.1, c.2) := by
            intro hx
            exact hc (by simpa using hx.symm)
          rw [show st.get_list_marker c.1 c.2 = st.get_list_marker c.1 c.2 from rfl] at *
          rw [get_list_marker_counters_frame st c.1 c.2 (nid, il) hq]
          exact hcnt
        have hcount : (c :: rest).count (nid, il) = rest.count (nid, il) := by
          simp [List.count_cons]
          exact fun hx => hc hx
        rw [hcount]
        exact ih _ j hres2 hcnt2

/-- C5: for a `(listId, depth)` pair resolving to an ordered-family level
with declared start `s` and an initially absent counter, the call of
`nextMarker` for that pair made after `k - 1` earlier calls for the same
pair (counted across the whole document, any other pairs interleaved,
never reset per paragraph) returns `"  "×depth`, the decimal rendering of
`s + k - 1`, and `". "`, whatever the ordered family; and for a level
whose format is bullet, every call returns `"  "×depth ++ "- "` and
returns the state unchanged, never reading or incrementing a counter. -/
theorem C5_ordered_markers_and_bullets (st0 : RenderState) (nid : String) (il : Nat)
    (lvl : NumberingLevel) (hres : st0.numbering.get_level nid il = some lvl)
    (hcnt : st0.list_counters (nid, il) = none) :
    (lvl.num_fmt ∈ orderedFormats →
      ∀ pre : List (String × Nat),
        ((runMarkers st0 pre).2.get_list_marker nid il).1
          = indentOf il ++ toString (lvl.start + (pre.count (nid, il) : Int)) ++ ". ") ∧
    (lvl.num_fmt = "bullet" →
      ∀ pre : List (String × Nat),
        (runMarkers st0 pre).2.get_list_marker nid il
          = (indentOf il ++ "- ", (runMarkers st0 pre).2)) := by
  constructor
  · intro ho pre
    have hres2 : (runMarkers st0 pre).2.numbering.get_level nid il = some lvl := by
      rw [runMarkers_numbering]
      exact hres
    have hinv := runMarkers_counter nid il lvl ho pre st0 0 hres (by simpa using hcnt)
    rw [get_list_marker_ordered _ nid il lvl hres2 ho]
    rw [hinv]
    by_cases hp : pre.count (nid, il) = 0 <;> simp [hp]
  · intro hb pre
    have hres2 : (runMarkers st0 pre).2.numbering.get_level nid il = some lvl := by
      rw [runMarkers_numbering]
      exact hres
    exact get_list_marker_bullet _ nid il lvl hres2 hb

/-- Witness for C5: a decimal level starting at 1 yields `"3. "` on its
third call, and a bullet level at depth 1 yields `"  - "` untouched. -/
theorem C5_ordered_markers_and_bullets_witness :
    ((runMarkers stDec [("1", 0), ("1", 0)]).2.get_list_marker "1" 0).1 = "3. " ∧
    (runMarkers stBul []).2.get_list_marker "2" 1
      = (indentOf 1 ++ "- ", (runMarkers stBul []).2) := by
  constructor
  · have h := (C5_ordered_markers_and_bullets stDec "1" 0 ⟨"decimal", "%1.", 1⟩ rfl rfl).1
      (by decide) [("1", 0), ("1", 0)]
    rw [h]
    decide
  · exact (C5_ordered_markers_and_bullets stBul "2" 1 ⟨"bullet", "•", 1⟩ rfl rfl).2 rfl []

/-- C1 (code evaluation at the failing input): for a document whose only
comment range (id "1", present in the registry) is opened but never
closed, the traversal ends with the range still active and holding the
paragraph text, yet the output is exactly `"hi\n"` — no trailing
annotation block is appended.  The final drain
(`pop_collected_comments`) reads only the collected-comment queue and
never flushes `active_comment_ranges`, so the unterminated range is
lost, contradicting the claim (and the source's own comment above the
drain) that it is recovered as a trailing block. -/
theorem C1_unterminated_range_dropped :
    linearize c1Registry emptyNumbering emptyStyles c1Body = "hi\n" ∧
    (linearizeBody c1Body (initState c1Registry emptyNumbering emptyStyles)).2.active_comment_ranges
        = [⟨"1", ["hi"]⟩] ∧
    (linearizeBody c1Body (initState c1Registry emptyNumbering emptyStyles)).2.collected_comments
        = [] := by
  refine ⟨?_, ?_, ?_⟩ <;> rfl

end Docx
